import Mathlib

/-!
# Telescope ray tracer: verification of the natural-language specification

Shallow embedding of the core of the `Telescope` repository (2-D Cassegrain
ray tracer with a secondary-mirror position optimizer and a batch
configuration scorer), translated from the C++ sources:

* `src/Ray.h` / `src/Ray.cpp`        — `Ray` (construction, reflection)
* `src/Camera.h` / `src/Camera.cpp`  — `CameraSensor` statistics counters
* `src/Mirror.cpp`                   — `HyperbolicMirror::intersect`
* `src/Optimizer.cpp`                — `TelescopeOptimizer` (coarse scan,
                                       hill climb, `traceRay`, `evaluatePosition`)
* `src/BatchOptimizer.cpp`           — `BatchOptimizer::evaluateConfig` scoring
                                       and `optimizeBatch` ranking

Conventions of the embedding:

* C++ `float`/`double` values are modelled as exact rationals (`ℚ`): the
  spec's claims are about the real-arithmetic meaning of the code, not about
  floating-point rounding.
* Calls to `std::sqrt` are modelled by passing the square-root value (or a
  square-root function) as an explicit parameter; theorems that depend on it
  carry the hypothesis `sqrtSpec s v` (`s ≥ 0 ∧ s * s = v`), which is exactly
  the real-arithmetic contract of `std::sqrt`.
* In-place mutation (the secondary mirror's `centerX`/`centerY`, the camera's
  accumulators) is modelled by explicit state threading: each function that
  mutates returns the final state of what it mutated.
* `std::numeric_limits<float>::max()` is the exact rational `(2^24 - 1)·2^104`.
* Where `Optimizer.h` contains an older in-class copy of the same member
  functions with a different tie-break policy, the out-of-line definitions of
  `src/Optimizer.cpp` are the ones embedded (the two copies cannot coexist in
  one translation unit; `Optimizer.cpp` is the revision the spec adopts).
-/

namespace Telescope

/-- Constant `EPSILON` from `src/Ray.h` line 8: `const float EPSILON = 1e-6f`. -/
def EPSILON : ℚ := 1 / 1000000

/-- Exact value of `std::numeric_limits<float>::max()` = `(2^24 − 1)·2^104`,
used to initialize `Intersection::distance` and the running best RMS. -/
def fltMax : ℚ := (2 ^ 24 - 1) * 2 ^ 104

/-- Specification that `s` is the exact (real) square root of `v`: the contract of `std::sqrt`
for the arguments arising in the embedded code. -/
def sqrtSpec (s v : ℚ) : Prop := 0 ≤ s ∧ s * s = v

instance (s v : ℚ) : Decidable (sqrtSpec s v) :=
  inferInstanceAs (Decidable (0 ≤ s ∧ s * s = v))

/-- A 2-D vector / point (`sf::Vector2f`). -/
structure Vec2 where
  x : ℚ
  y : ℚ
deriving DecidableEq, Repr

/-- Dot product of two 2-D vectors. -/
def dot (u v : Vec2) : ℚ := u.x * v.x + u.y * v.y

/-- Squared Euclidean norm of a 2-D vector. -/
def normSq (v : Vec2) : ℚ := v.x * v.x + v.y * v.y

/-- Ray state (`class Ray`, `src/Ray.h`): origin, direction, accumulated
path, bounce counter (`int bounces`; the sentinel `-1` marks a blocked ray).
The GUI-only `color` field is omitted. -/
structure RayState where
  origin : Vec2
  direction : Vec2
  path : List Vec2
  bounces : ℤ
deriving DecidableEq, Repr

/-- Embedding of `Ray::normalizeDirection` (`src/Ray.cpp` 15–21): divide by the magnitude
when it exceeds `EPSILON`, otherwise leave the direction unchanged.
`mag` is the value `std::sqrt(x² + y²)` returns. -/
def normalizeDirection (d : Vec2) (mag : ℚ) : Vec2 :=
  if EPSILON < mag then ⟨d.x / mag, d.y / mag⟩ else d

/-- The `Ray` constructor (`src/Ray.cpp` 9–13): store origin, push it on the
path, zero the bounce counter, normalize the direction. -/
def rayNew (orig dir : Vec2) (mag : ℚ) : RayState :=
  { origin := orig
    direction := normalizeDirection dir mag
    path := [orig]
    bounces := 0 }

/-- Embedding of `Ray::pointAt` (`src/Ray.cpp` 23–25). -/
def pointAt (r : RayState) (t : ℚ) : Vec2 :=
  ⟨r.origin.x + t * r.direction.x, r.origin.y + t * r.direction.y⟩

/-- Embedding of `Ray::reflect` (`src/Ray.cpp` 27–45): push the hit point, reflect the
direction about the normal (`d' = d − 2(d·n)n`), offset the origin along the
normal, increment the bounce counter.  (Color updates are GUI-only and
omitted.) -/
def reflect (r : RayState) (hitPoint normal : Vec2) : RayState :=
  let d := dot r.direction normal
  let dir' : Vec2 := ⟨r.direction.x - 2 * d * normal.x, r.direction.y - 2 * d * normal.y⟩
  let offset : ℚ := 1 / 100000 * (|hitPoint.x| + |hitPoint.y| + 1)
  { origin := ⟨hitPoint.x + normal.x * offset, hitPoint.y + normal.y * offset⟩
    direction := dir'
    path := r.path ++ [hitPoint]
    bounces := r.bounces + 1 }

/-- Fold a ray through a sequence of reflections (hit point, unit normal):
used to state norm preservation "after any number of reflections". -/
def reflectAll (r : RayState) (events : List (Vec2 × Vec2)) : RayState :=
  events.foldl (fun s e => reflect s e.1 e.2) r

/-- Embedding of `struct Intersection` (`src/Ray.h` 10–18): default constructor sets
`hit = false`, `distance = FLT_MAX`; `sf::Vector2f` members default to
`(0,0)`.  The `mirrorPtr` member is replaced by the separate `hitMirror`
tracking of the trace loop, exactly as the loop itself uses it. -/
structure Intersec where
  hit : Bool := false
  point : Vec2 := ⟨0, 0⟩
  normal : Vec2 := ⟨0, 0⟩
  distance : ℚ := fltMax
deriving DecidableEq, Repr

/-- The default-constructed `Intersection`. -/
def emptyIntersec : Intersec := {}

/-! ## HyperbolicMirror (`src/Mirror.cpp` 246–366) -/

/-- Geometry fields of `class HyperbolicMirror`: center, semi-axes `a`,`b`,
Y-extent, branch selector. -/
structure HyperMirror where
  centerX : ℚ
  centerY : ℚ
  a : ℚ
  b : ℚ
  yMin : ℚ
  yMax : ℚ
  useLeftBranch : Bool
deriving DecidableEq, Repr

/-- Root selection of `HyperbolicMirror::intersect` when both quadratic
roots exceed `EPSILON` (`src/Mirror.cpp` 313–321): compare the two candidate
(relative) X coordinates and keep the smaller one for the left branch, the
larger one for the right branch. -/
def chooseRoot (useLeft : Bool) (ox dx t1 t2 : ℚ) : ℚ :=
  let x1 := ox + t1 * dx
  let x2 := ox + t2 * dx
  if useLeft then (if x1 < x2 then t1 else t2)
  else (if x2 < x1 then t1 else t2)

/-- Embedding of `HyperbolicMirror::getX` (`src/Mirror.cpp` 258–264).  `sq` stands for
`std::sqrt`. -/
def hyperGetX (m : HyperMirror) (sq : ℚ → ℚ) (y : ℚ) : ℚ :=
  let yRel := y - m.centerY
  let term := 1 + yRel * yRel / (m.b * m.b)
  if term < 0 then m.centerX
  else m.centerX + (if m.useLeftBranch then -(m.a * sq term) else m.a * sq term)

/-- Embedding of `HyperbolicMirror::getNormal` (`src/Mirror.cpp` 266–285). -/
def hyperGetNormal (m : HyperMirror) (sq : ℚ → ℚ) (y : ℚ) : Vec2 :=
  let x := hyperGetX m sq y
  let yRel := y - m.centerY
  let xRel := x - m.centerX
  if |xRel| < EPSILON then
    (if m.useLeftBranch then ⟨-1, 0⟩ else ⟨1, 0⟩)
  else
    let dxdy := yRel * m.a * m.a / (xRel * m.b * m.b)
    let mag := sq (1 + dxdy * dxdy)
    let n : Vec2 := ⟨1 / mag, -(dxdy / mag)⟩
    if m.useLeftBranch then ⟨-n.x, -n.y⟩ else n

/-- The three Newton–Raphson refinement iterations of
`HyperbolicMirror::intersect` (`src/Mirror.cpp` 331–348). -/
def hyperNewton (m : HyperMirror) (ox oy dx dy : ℚ) : ℕ → ℚ → ℚ
  | 0, t => t
  | k + 1, t =>
      let x := ox + t * dx
      let y := oy + t * dy
      let f := x * x / (m.a * m.a) - y * y / (m.b * m.b) - 1
      let fPrime := 2 * (x * dx / (m.a * m.a) - y * dy / (m.b * m.b))
      hyperNewton m ox oy dx dy k (if EPSILON < |fPrime| then t - f / fPrime else t)

/-- Embedding of `HyperbolicMirror::intersect` (`src/Mirror.cpp` 287–366): quadratic in
the ray parameter, root selection (degenerate linear fallback, discriminant
test, branch-aware choice when both roots are positive), three Newton
iterations, Y-extent acceptance test, and normal orientation. -/
def hyperIntersect (m : HyperMirror) (sq : ℚ → ℚ) (r : RayState) : Intersec :=
  let ox := r.origin.x - m.centerX
  let oy := r.origin.y - m.centerY
  let dx := r.direction.x
  let dy := r.direction.y
  let A := dx * dx / (m.a * m.a) - dy * dy / (m.b * m.b)
  let B := 2 * (ox * dx / (m.a * m.a) - oy * dy / (m.b * m.b))
  let C := ox * ox / (m.a * m.a) - oy * oy / (m.b * m.b) - 1
  let t0 : ℚ :=
    if |A| < EPSILON then
      (if EPSILON < |B| then -C / B else -1)
    else
      let disc := B * B - 4 * A * C
      if 0 ≤ disc then
        let sd := sq disc
        let t1 := (-B - sd) / (2 * A)
        let t2 := (-B + sd) / (2 * A)
        if EPSILON < t1 ∧ EPSILON < t2 then chooseRoot m.useLeftBranch ox dx t1 t2
        else if EPSILON < t1 then t1
        else if EPSILON < t2 then t2
        else -1
      else -1
  if EPSILON < t0 then
    let t := hyperNewton m ox oy dx dy 3 t0
    let yHit := oy + t * dy + m.centerY
    if m.yMin - EPSILON ≤ yHit ∧ yHit ≤ m.yMax + EPSILON then
      let n0 := hyperGetNormal m sq yHit
      let n := if 0 < dx * n0.x + dy * n0.y then (⟨-n0.x, -n0.y⟩ : Vec2) else n0
      { hit := true, point := ⟨ox + t * dx + m.centerX, yHit⟩, normal := n, distance := t }
    else emptyIntersec
  else emptyIntersec

/-- Exact square root on ℚ, correct for perfect squares; used to
instantiate the `sq` parameter at concrete inputs. -/
def ratSqrt (q : ℚ) : ℚ := (Nat.sqrt q.num.toNat : ℚ) / (Nat.sqrt q.den : ℚ)

/-! ## Sensor statistics (`src/Camera.cpp`) -/

/-- Embedding of `CameraSensor::getRMSSpotSize` (`src/Camera.cpp` 96–115): 0 below two
hit points, else the square root of the mean squared distance of the hit
points from their centroid.  `sq` stands for `std::sqrt`. -/
def getRMSSpotSize (sq : ℚ → ℚ) (hitPoints : List Vec2) : ℚ :=
  if hitPoints.length < 2 then 0
  else
    let n : ℚ := hitPoints.length
    let cx := (hitPoints.map (fun h => h.x)).sum / n
    let cy := (hitPoints.map (fun h => h.y)).sum / n
    sq ((hitPoints.map (fun h => (h.x - cx) * (h.x - cx) + (h.y - cy) * (h.y - cy))).sum / n)

/-! ## Trace state machine (`TelescopeOptimizer::traceRay`, `src/Optimizer.cpp` 224–276;
the identical inline copy sits in `BatchOptimizer::evaluateConfig`,
`src/BatchOptimizer.cpp` 219–263) -/

/-- Surface tag, the value of the virtual `getType()`. -/
inductive SurfType where
  | parabolic
  | hyperbolic
  | flat
  | camera
deriving DecidableEq, Repr

/-- One entry of the `mirrors` vector: its `getType()` tag paired with its
`intersect` member (the trace loop uses surfaces only through these two). -/
structure Surface where
  type : SurfType
  intersect : RayState → Intersec

/-- Camera accumulators (`CameraSensor`, `src/Camera.h` 18–20):
`hitPoints`, `totalRaysTraced`, `blockedRays`. -/
structure CamState where
  hitPoints : List Vec2
  totalRaysTraced : ℤ
  blockedRays : ℤ
deriving DecidableEq, Repr

/-- Embedding of `CameraSensor::clearHits` (`src/Camera.cpp` 12–16). -/
def clearHits : CamState := { hitPoints := [], totalRaysTraced := 0, blockedRays := 0 }

/-- Closest-hit selection of one `traceRay` loop iteration
(`src/Optimizer.cpp` 226–248): fold over the mirror list (skipped entirely
for bounce index ≥ 2), then the camera probe, which clears the `hitMirror`
pointer when it wins.  Returns the closest intersection and the `getType()`
tag of `hitMirror` (`none` = camera hit or no mirror hit). -/
def selectClosest (mirrors : List Surface) (cam : Option (RayState → Intersec))
    (bounce : ℕ) (r : RayState) : Intersec × Option SurfType :=
  let afterMirrors := mirrors.foldl
    (fun acc m =>
      if 2 ≤ bounce then acc
      else
        let i := m.intersect r
        if i.hit ∧ i.distance < acc.1.distance then (i, some m.type) else acc)
    ((emptyIntersec, none) : Intersec × Option SurfType)
  match cam with
  | some ci =>
      let ch := ci r
      if ch.hit ∧ ch.distance < afterMirrors.1.distance then (ch, none) else afterMirrors
  | none => afterMirrors

/-- The bounce loop of `traceRay` (`src/Optimizer.cpp` 226–271), structural
on the remaining bounce budget; `b` is the current bounce index. -/
def traceLoop (mirrors : List Surface) (cam : Option (RayState → Intersec)) :
    ℕ → ℕ → RayState → CamState → RayState × CamState
  | 0, _, r, cs => (r, cs)
  | fuel + 1, b, r, cs =>
      let sel := selectClosest mirrors cam b r
      if sel.1.hit then
        match sel.2 with
        | none =>
            ({ r with path := r.path ++ [sel.1.point] },
             if cam.isSome then { cs with hitPoints := cs.hitPoints ++ [sel.1.point] } else cs)
        | some ty =>
            if b = 0 ∧ ty = SurfType.hyperbolic then
              ({ r with bounces := -1 },
               if cam.isSome then { cs with blockedRays := cs.blockedRays + 1 } else cs)
            else
              traceLoop mirrors cam fuel (b + 1) (reflect r sel.1.point sel.1.normal) cs
      else (r, cs)

/-- Embedding of `TelescopeOptimizer::traceRay` (`src/Optimizer.cpp` 224–276): run the
bounce loop from index 0, then increment `totalRaysTraced` iff the ray was
not invalidated (`bounces >= 0`) and a camera exists. -/
def traceRay (mirrors : List Surface) (cam : Option (RayState → Intersec))
    (maxBounces : ℕ) (r : RayState) (cs : CamState) : RayState × CamState :=
  let rc := traceLoop mirrors cam maxBounces 0 r cs
  if 0 ≤ rc.1.bounces ∧ cam.isSome then
    (rc.1, { rc.2 with totalRaysTraced := rc.2.totalRaysTraced + 1 })
  else rc

/-! ## Position optimizer (`src/Optimizer.cpp`)

The per-position ray-bundle loop (`src/Optimizer.cpp` 49–58 / 90–94 /
117–121 / 297–301) always performs `camera->clearHits()` followed by
`numRays` calls to `traceRay` on freshly constructed rays whose origins and
directions depend only on parameters that are fixed for the whole optimizer
invocation.  Its effect on the camera is therefore a deterministic function
of the secondary mirror's position alone; the embedding abstracts it as a
parameter `trace : Vec2 → BundleStats` giving the camera readouts after the
bundle has been traced with the secondary at the given position. -/

/-- Camera readouts after tracing one full ray bundle:
`hitPoints.size()`, `getRMSSpotSize()`, `totalRaysTraced`, `blockedRays`. -/
structure BundleStats where
  hits : ℕ
  rms : ℚ
  raysTraced : ℤ
  blocked : ℤ
deriving DecidableEq, Repr

/-- Embedding of `struct OptimizationResult` (`src/Optimizer.h` 13–20).  The struct has
no default member initializers: a default-constructed instance has
indeterminate scalar fields (only the `scanData` vector default-constructs
to empty), which the embedding models by passing the indeterminate initial
contents explicitly. -/
structure OptimizationResult where
  bestSecondaryX : ℚ
  bestSecondaryY : ℚ
  maxHits : ℕ
  hitPercentage : ℚ
  focusSpread : ℚ
  scanData : List (ℚ × ℕ)
deriving DecidableEq, Repr

/-- The positions visited by the C++ float loop
`for (v = lo; v <= hi; v += step)` in exact arithmetic: `lo, lo+step, …` up
to the last value `≤ hi`.  (For `step ≤ 0` the C++ loop does not terminate;
completed scans always have a positive step.) -/
def gridPoints (lo hi step : ℚ) : List ℚ :=
  if 0 < step ∧ lo ≤ hi then
    (List.range (((hi - lo) / step).floor.toNat + 1)).map (fun i => lo + (i : ℚ) * step)
  else []

/-- The (x, y) samples of the nested scan loops, in visit order
(`src/Optimizer.cpp` 45–46). -/
def scanPairs (xs ys : List ℚ) : List Vec2 :=
  xs.flatMap (fun x => ys.map (fun y => (⟨x, y⟩ : Vec2)))

/-- Running state of the coarse scan's first pass: the result under
construction plus `bestRMS` / `bestHitsForRMS` (`src/Optimizer.cpp` 42–43). -/
structure ScanAcc where
  res : OptimizationResult
  bestRMS : ℚ
  bestHitsForRMS : ℕ
deriving DecidableEq, Repr

/-- One sample of the coarse scan's first pass (`src/Optimizer.cpp` 47–78):
position the secondary, clear and trace the bundle, record the diagnostic
sample at `|y| < 0.01`, update the running maximum hit count, and accept the
position as `bestForRMS` when `hits >= numRays / 2` (C++ integer division)
and the RMS strictly improves. -/
def scanStep (numRays : ℕ) (trace : Vec2 → BundleStats) (acc : ScanAcc) (p : Vec2) : ScanAcc :=
  let st := trace p
  let res1 :=
    if |p.y| < 1 / 100 then { acc.res with scanData := acc.res.scanData ++ [(p.x, st.hits)] }
    else acc.res
  let res2 := if res1.maxHits < st.hits then { res1 with maxHits := st.hits } else res1
  if numRays / 2 ≤ st.hits ∧ st.rms < acc.bestRMS then
    { res := { res2 with bestSecondaryX := p.x, bestSecondaryY := p.y }
      bestRMS := st.rms
      bestHitsForRMS := st.hits }
  else { acc with res := res2 }

/-- The fallback pass of the coarse scan (`src/Optimizer.cpp` 83–105): for
each scan column, re-trace down the rows and stop at the first row whose hit
count equals the recorded maximum; after each column, stop altogether if
`bestHitsForRMS > 0` (never true when this pass runs, so every column is
visited and the last attaining column wins). -/
def fallbackScan (trace : Vec2 → BundleStats) (maxHits : ℕ) (ys : List ℚ)
    (bestHitsForRMS : ℕ) : List ℚ → Vec2 → Vec2
  | [], best => best
  | x :: rest, best =>
      let best' :=
        match ys.find? (fun y => (trace ⟨x, y⟩).hits = maxHits) with
        | some y => (⟨x, y⟩ : Vec2)
        | none => best
      if 0 < bestHitsForRMS then best'
      else fallbackScan trace maxHits ys bestHitsForRMS rest best'

/-- Embedding of `TelescopeOptimizer::optimizeSecondaryPosition` (`src/Optimizer.cpp`
6–129).  `sec0` is the secondary's entry position, `cam0` the camera
readouts on entry, `uninit` the indeterminate initial contents of the local
`OptimizationResult`.  Returns the result, the secondary's final position,
and the final camera readouts. -/
def coarseScan (mirrors : List Surface) (camPresent : Bool) (trace : Vec2 → BundleStats)
    (numRays : ℕ) (scanXMin scanXMax scanXStep scanYMin scanYMax scanYStep : ℚ)
    (sec0 : Vec2) (cam0 : BundleStats) (uninit : OptimizationResult) :
    OptimizationResult × Vec2 × BundleStats :=
  let result0 : OptimizationResult :=
    { uninit with maxHits := 0, bestSecondaryX := scanXMin, bestSecondaryY := 0, scanData := [] }
  if mirrors.any (fun s => s.type = SurfType.hyperbolic) ∧ camPresent then
    let xs := gridPoints scanXMin scanXMax scanXStep
    let ys := gridPoints scanYMin scanYMax scanYStep
    let acc := (scanPairs xs ys).foldl (scanStep numRays trace)
      { res := result0, bestRMS := fltMax, bestHitsForRMS := 0 }
    let best :=
      if acc.bestHitsForRMS = 0 then
        fallbackScan trace acc.res.maxHits ys acc.bestHitsForRMS xs
          ⟨acc.res.bestSecondaryX, acc.res.bestSecondaryY⟩
      else (⟨acc.res.bestSecondaryX, acc.res.bestSecondaryY⟩ : Vec2)
    let res1 :=
      { acc.res with
        bestSecondaryX := best.x
        bestSecondaryY := best.y
        hitPercentage := 100 * (acc.res.maxHits : ℚ) / (numRays : ℚ) }
    let finalStats := trace best
    ({ res1 with focusSpread := finalStats.rms }, sec0, finalStats)
  else (result0, sec0, cam0)

/-- Embedding of `TelescopeOptimizer::evaluatePosition` (`src/Optimizer.cpp` 278–309):
save the secondary's position, move it to `test`, clear and trace the
bundle, read the hit count, restore the position.  Returns the hit count,
the secondary's final position and the camera readouts (left at the
just-traced bundle's values — the caller reads the RMS from them). -/
def evaluatePosition (trace : Vec2 → BundleStats) (sec : Vec2) (test : Vec2) :
    ℕ × Vec2 × BundleStats :=
  let st := trace test
  (st.hits, sec, st)

/-- The 8 hill-climb directions (`src/Optimizer.cpp` 169–172): four axis
moves and four diagonals (the diagonal components are the literal `0.707f`). -/
def fineDirections : List (ℚ × ℚ) :=
  [(1, 0), (-1, 0), (0, 1), (0, -1),
   (707 / 1000, 707 / 1000), (-707 / 1000, 707 / 1000),
   (707 / 1000, -707 / 1000), (-707 / 1000, -707 / 1000)]

/-- Running state of the hill climb (`src/Optimizer.cpp` 160–167): current
best position, best hit count, best RMS, per-iteration `improved` flag,
secondary position and camera readouts. -/
structure FineAcc where
  bestX : ℚ
  bestY : ℚ
  bestHits : ℕ
  bestRMS : ℚ
  improved : Bool
  sec : Vec2
  cam : BundleStats
deriving DecidableEq, Repr

/-- One candidate move of the hill climb (`src/Optimizer.cpp` 174–196):
probe `best + dir * stepSize` through `evaluatePosition`, track the best hit
count separately, and move the best position iff the RMS read from the
camera strictly improves. -/
def fineStep (trace : Vec2 → BundleStats) (stepSize : ℚ) (acc : FineAcc) (d : ℚ × ℚ) : FineAcc :=
  let testX := acc.bestX + d.1 * stepSize
  let testY := acc.bestY + d.2 * stepSize
  let ev := evaluatePosition trace acc.sec ⟨testX, testY⟩
  let acc1 := { acc with sec := ev.2.1, cam := ev.2.2 }
  let acc2 := if acc1.bestHits < ev.1 then { acc1 with bestHits := ev.1 } else acc1
  if ev.2.2.rms < acc2.bestRMS then
    { acc2 with bestRMS := ev.2.2.rms, bestX := testX, bestY := testY, improved := true }
  else acc2

/-- One full hill-climb iteration (`src/Optimizer.cpp` 167–196): reset the
`improved` flag and evaluate all 8 candidate moves in order. -/
def fineIter (trace : Vec2 → BundleStats) (stepSize : ℚ) (acc : FineAcc) : FineAcc :=
  fineDirections.foldl (fineStep trace stepSize) { acc with improved := false }

/-- The hill-climb outer loop (`src/Optimizer.cpp` 166–202): run up to
`maxIterations` iterations; after an unimproved iteration halve the step and
stop once it drops below `0.001`.  Returns the final state and step size. -/
def fineLoop (trace : Vec2 → BundleStats) : ℕ → ℚ → FineAcc → FineAcc × ℚ
  | 0, stepSize, acc => (acc, stepSize)
  | n + 1, stepSize, acc =>
      let acc' := fineIter trace stepSize acc
      if acc'.improved then fineLoop trace n stepSize acc'
      else
        let stepSize' := stepSize * (1 / 2)
        if stepSize' < 1 / 1000 then (acc', stepSize')
        else fineLoop trace n stepSize' acc'

/-- Embedding of `TelescopeOptimizer::fineOptimize` (`src/Optimizer.cpp` 131–222).
Interface as for `coarseScan`; the unused `searchRadius` parameter of the
C++ signature is omitted.  Note the final re-trace positions the secondary
at the best found point and the function returns without restoring it. -/
def fineOptimize (mirrors : List Surface) (camPresent : Bool) (trace : Vec2 → BundleStats)
    (numRays : ℕ) (startX startY initialStep : ℚ) (maxIterations : ℕ)
    (sec0 : Vec2) (cam0 : BundleStats) (uninit : OptimizationResult) :
    OptimizationResult × Vec2 × BundleStats :=
  let result0 : OptimizationResult := { uninit with scanData := [] }
  if mirrors.any (fun s => s.type = SurfType.hyperbolic) ∧ camPresent then
    let acc0 : FineAcc :=
      { bestX := startX, bestY := startY, bestHits := 0, bestRMS := fltMax,
        improved := false, sec := sec0, cam := cam0 }
    let accF := (fineLoop trace maxIterations initialStep acc0).1
    let res :=
      { result0 with
        maxHits := accF.bestHits
        bestSecondaryX := accF.bestX
        bestSecondaryY := accF.bestY
        hitPercentage := 100 * (accF.bestHits : ℚ) / (numRays : ℚ) }
    let finalStats := trace ⟨accF.bestX, accF.bestY⟩
    ({ res with focusSpread := finalStats.rms }, ⟨accF.bestX, accF.bestY⟩, finalStats)
  else (result0, sec0, cam0)

/-! ## Batch evaluator (`src/BatchOptimizer.cpp`) -/

/-- Embedding of `struct BatchResult` (`src/BatchOptimizer.h` 34–42), without the echoed
input configuration. -/
structure BatchRes where
  cameraHits : ℕ
  hitPercentage : ℚ
  rmsSpotSize : ℚ
  bestSecondaryX : ℚ
  bestSecondaryY : ℚ
  score : ℚ
deriving DecidableEq, Repr

/-- Running best of `evaluateConfig`'s 1-D scan (`src/BatchOptimizer.cpp`
203–206). -/
structure BatchAcc where
  bestHits : ℕ
  bestX : ℚ
  bestY : ℚ
  bestRMS : ℚ
deriving DecidableEq, Repr

/-- One column of `evaluateConfig`'s scan (`src/BatchOptimizer.cpp`
208–275): trace the bundle with the secondary at `(x, 0)` and keep the
position on strictly more hits, or on equal hits with strictly smaller RMS. -/
def batchScanStep (trace : Vec2 → BundleStats) (acc : BatchAcc) (x : ℚ) : BatchAcc :=
  let st := trace ⟨x, 0⟩
  if acc.bestHits < st.hits ∨ (st.hits = acc.bestHits ∧ st.rms < acc.bestRMS) then
    { bestHits := st.hits, bestX := x, bestY := 0, bestRMS := st.rms }
  else acc

/-- Result assembly of `evaluateConfig` (`src/BatchOptimizer.cpp` 277–285):
`hitPercentage = 100·bestHits/numRays` and
`score = hitPercentage·100 − rmsSpotSize`. -/
def batchFinalize (numRays : ℕ) (acc : BatchAcc) : BatchRes :=
  let hp := 100 * (acc.bestHits : ℚ) / (numRays : ℚ)
  { cameraHits := acc.bestHits
    hitPercentage := hp
    rmsSpotSize := acc.bestRMS
    bestSecondaryX := acc.bestX
    bestSecondaryY := acc.bestY
    score := hp * 100 - acc.bestRMS }

/-- The scan-and-score body of `BatchOptimizer::evaluateConfig`
(`src/BatchOptimizer.cpp` 199–288): fold the 1-D scan over the columns and
assemble the scored result (initial best RMS is the literal `100000.0f`). -/
def evaluateConfigScan (trace : Vec2 → BundleStats) (numRays : ℕ)
    (initialSecondaryX : ℚ) (xs : List ℚ) : BatchRes :=
  batchFinalize numRays
    (xs.foldl (batchScanStep trace)
      { bestHits := 0, bestX := initialSecondaryX, bestY := 0, bestRMS := 100000 })

/-- The ranking step of `BatchOptimizer::optimizeBatch`
(`src/BatchOptimizer.cpp` 322–331): sort by descending score and keep the
top `topN`. -/
def optimizeBatchRank (results : List BatchRes) (topN : ℕ) : List BatchRes :=
  (results.mergeSort (fun a b => b.score ≤ a.score)).take topN

/-! ## The coarse-scan selection rule as the specification words it
(used only to exhibit its divergence from the code; the spec's threshold is
"hit count at least 50% of the ray bundle size", i.e. `2·hits ≥ numRays`). -/

/-- Selection rule transcribed from the specification text for the coarse
scan: among scanned positions with `hits ≥ 50% · numRays` pick the lowest
RMS; if none qualifies, fall back to a position with the maximum hit count. -/
def specCoarseSelect (trace : Vec2 → BundleStats) (numRays : ℕ) (pairs : List Vec2) :
    Option Vec2 :=
  let cands := pairs.filter (fun p => numRays ≤ 2 * (trace p).hits)
  if cands.isEmpty then
    let maxH := pairs.foldl (fun acc p => max acc (trace p).hits) 0
    pairs.find? (fun p => (trace p).hits = maxH)
  else
    cands.foldl
      (fun best p =>
        match best with
        | none => some p
        | some b => if (trace p).rms < (trace b).rms then some p else some b)
      none

/-! ## Concrete instances used by witnesses and counterexamples -/

/-- A hyperbolic-tagged surface whose probe never hits: enough for the
optimizer's "does a hyperbolic secondary exist" check. -/
def hyperDummy : Surface := ⟨SurfType.hyperbolic, fun _ => emptyIntersec⟩

/-- A flat-tagged surface whose probe never hits. -/
def flatDummy : Surface := ⟨SurfType.flat, fun _ => emptyIntersec⟩

/-- Camera readouts of an untouched camera. -/
def camDummy : BundleStats := ⟨0, 0, 0, 0⟩

/-- A bundle behaviour with two scan positions: `(0,0)` collects 2 hits at
RMS 1, everywhere else 5 hits at RMS 10. -/
def traceCE1 : Vec2 → BundleStats := fun p => if p = ⟨0, 0⟩ then ⟨2, 1, 5, 0⟩ else ⟨5, 10, 5, 0⟩

/-- A bundle behaviour where position `(0,0)` collects 5 hits (RMS 1, 8 of
10 rays surviving to the sensor or a miss, 2 blocked) and every other
position collects 7 hits at RMS 10 with no blocked rays. -/
def traceCE2 : Vec2 → BundleStats := fun p => if p = ⟨0, 0⟩ then ⟨5, 1, 8, 2⟩ else ⟨7, 10, 10, 0⟩

/-- All-zero initial contents for a local `OptimizationResult`. -/
def uninitZero : OptimizationResult := ⟨0, 0, 0, 0, 0, []⟩

/-- Nonzero indeterminate initial contents for a local
`OptimizationResult` (its scalar members are never zero-initialized by the
C++ default constructor). -/
def uninitGarbage : OptimizationResult := ⟨9, 9, 7, 9, 9, [(1, 1)]⟩

/-- Unit rectangular hyperbola centred at the origin, left branch,
Y-extent `[-10, 10]`. -/
def mCE : HyperMirror := ⟨0, 0, 1, 1, -10, 10, true⟩

/-- A ray from the origin heading in `+x`; it meets only the right branch
of `mCE`. -/
def rayCE : RayState := rayNew ⟨0, 0⟩ ⟨1, 0⟩ 1

/-- The mirror `mCE` as a surface entry of the mirror list. -/
def hyperReal : Surface := ⟨SurfType.hyperbolic, hyperIntersect mCE ratSqrt⟩

/-- A camera probe that never hits. -/
def camMiss : RayState → Intersec := fun _ => emptyIntersec

/-- A camera probe that always hits straight ahead at distance 7. -/
def camAt7 : RayState → Intersec := fun r =>
  { hit := true, point := pointAt r 7, normal := ⟨-1, 0⟩, distance := 7 }

/-! # Theorems -/

set_option maxRecDepth 1000000

/-- Claim C10, counterexample. A `Ray` constructed from the zero direction
(whose magnitude, 0, is the exact square root of its squared norm) keeps
the zero direction: its norm is 0, not 1, refuting "for every constructed
Ray, the direction vector has norm 1". -/
theorem ray_direction_norm_counterexample :
    sqrtSpec 0 (normSq (⟨0, 0⟩ : Vec2)) ∧
    normSq (rayNew ⟨0, 0⟩ ⟨0, 0⟩ 0).direction ≠ 1 :=
  of_decide_eq_true (by with_unfolding_all rfl)

/-- Claim C10, amended. For every constructed `Ray` whose initial direction
magnitude exceeds `EPSILON`, the direction has (squared) norm 1 at
construction; the reflected direction is `d' = d − 2(d·n)n`; a reflection
about a unit normal preserves the direction's norm and flips its
component along the normal; hence the norm is preserved by any number of
reflections about unit normals. -/
theorem ray_direction_norm_amended :
    (∀ o d mag, sqrtSpec mag (normSq d) → EPSILON < mag →
      normSq (rayNew o d mag).direction = 1) ∧
    (∀ r hp n, (reflect r hp n).direction =
      ⟨r.direction.x - 2 * dot r.direction n * n.x,
       r.direction.y - 2 * dot r.direction n * n.y⟩) ∧
    (∀ r hp n, normSq n = 1 →
      normSq (reflect r hp n).direction = normSq r.direction ∧
      dot (reflect r hp n).direction n = -dot r.direction n) ∧
    (∀ r events, (∀ e ∈ events, normSq e.2 = 1) →
      normSq (reflectAll r events).direction = normSq r.direction) := by
  have hrefl : ∀ (r : RayState) (hp n : Vec2), normSq n = 1 →
      normSq (reflect r hp n).direction = normSq r.direction ∧
      dot (reflect r hp n).direction n = -dot r.direction n := by
    intro r hp n hn
    simp only [reflect, normSq, dot] at *
    constructor
    · linear_combination (4 * (r.direction.x * n.x + r.direction.y * n.y) ^ 2) * hn
    · linear_combination (-2 * (r.direction.x * n.x + r.direction.y * n.y)) * hn
  refine ⟨?_, ?_, hrefl, ?_⟩
  · intro o d mag hs hm
    have hmag : (0 : ℚ) < mag := lt_trans (by norm_num [EPSILON]) hm
    have hmag' : mag ≠ 0 := ne_of_gt hmag
    simp only [rayNew, normalizeDirection, if_pos hm, normSq] at *
    field_simp
    linear_combination -hs.2
  · intro r hp n
    rfl
  · intro r events
    induction events generalizing r with
    | nil => intro _; rfl
    | cons e rest ih =>
        intro h
        have h1 := (hrefl r e.1 e.2 (h e (List.mem_cons_self e rest))).1
        have h2 := ih (reflect r e.1 e.2) (fun x hx => h x (List.mem_cons_of_mem e hx))
        simpa [reflectAll] using h2.trans h1

/-- Claim C10, witness for the amended theorem: the ray from the origin with
direction `(3,4)` (magnitude 5) is normalized to norm 1, and a reflection
about the unit normal `(0,1)` preserves that norm. -/
theorem ray_direction_norm_amended_witness :
    normSq (rayNew ⟨0, 0⟩ ⟨3, 4⟩ 5).direction = 1 ∧
    normSq (reflect (rayNew ⟨0, 0⟩ ⟨3, 4⟩ 5) ⟨1, 1⟩ ⟨0, 1⟩).direction =
      normSq (rayNew ⟨0, 0⟩ ⟨3, 4⟩ 5).direction := by
  constructor
  · exact ray_direction_norm_amended.1 ⟨0, 0⟩ ⟨3, 4⟩ 5
      (of_decide_eq_true (by with_unfolding_all rfl))
      (of_decide_eq_true (by with_unfolding_all rfl))
  · exact (ray_direction_norm_amended.2.2.1 (rayNew ⟨0, 0⟩ ⟨3, 4⟩ 5) ⟨1, 1⟩ ⟨0, 1⟩
      (of_decide_eq_true (by with_unfolding_all rfl))).1

/-- Claim C6, counterexample. A left-branch hyperbolic mirror accepts a hit
whose X coordinate exceeds the mirror's center X: the ray from the origin
heading in `+x` meets only the right branch of the unit hyperbola, its
single positive root is accepted regardless of the configured branch, and
the returned hit point is `(1, 0)` with `centerX = 0`.  (The square-root
values the computation consumes, at 4 and at 1, are certified exact.) -/
theorem hyper_branch_invariant_counterexample :
    mCE.useLeftBranch = true ∧
    (hyperIntersect mCE ratSqrt rayCE).hit = true ∧
    mCE.centerX < (hyperIntersect mCE ratSqrt rayCE).point.x ∧
    sqrtSpec (ratSqrt 4) 4 ∧ sqrtSpec (ratSqrt 1) 1 ∧
    sqrtSpec 1 (normSq ⟨1, 0⟩) :=
  of_decide_eq_true (by with_unfolding_all rfl)

/-- Claim C6, amended. The branch selector only arbitrates between the two
roots when both exceed `EPSILON`: in that case the left-branch
configuration accepts the root with the smaller X coordinate and the
right-branch configuration the one with the larger X coordinate.  (When
only one root is positive it is accepted regardless of branch, so an
accepted hit's X need not lie on the configured side of center X.) -/
theorem hyper_branch_choice_amended :
    ∀ (ox dx t1 t2 : ℚ),
      ox + chooseRoot true ox dx t1 t2 * dx = min (ox + t1 * dx) (ox + t2 * dx) ∧
      ox + chooseRoot false ox dx t1 t2 * dx = max (ox + t1 * dx) (ox + t2 * dx) := by
  intro ox dx t1 t2
  constructor
  · simp only [chooseRoot, if_true]
    split_ifs with h
    · rw [min_eq_left h.le]
    · push_neg at h
      rw [min_eq_right h]
  · simp only [chooseRoot, Bool.false_eq_true, if_false]
    split_ifs with h
    · rw [max_eq_left h.le]
    · push_neg at h
      rw [max_eq_right h]

/-- Claim C7, code bug. `optimizeSecondaryPosition` does zero-initialize
`maxHits` before its "no hyperbolic secondary" early return, but
`fineOptimize` returns its local `OptimizationResult` without ever writing
the scalar fields: with no hyperbolic surface in the list (or with no
camera) the caller receives whatever indeterminate value the
uninitialized `maxHits` held (here 7), not the promised 0. -/
theorem fineOptimize_uninitialized_result_bug :
    (coarseScan [] true traceCE1 10 0 1 1 0 0 1 ⟨3, 3⟩ camDummy uninitGarbage).1.maxHits = 0 ∧
    (fineOptimize [] true (fun _ => camDummy) 10 5 0 (1 / 2) 3 ⟨3, 3⟩ camDummy
      uninitGarbage).1.maxHits = 7 ∧
    (fineOptimize [hyperDummy] false (fun _ => camDummy) 10 5 0 (1 / 2) 3 ⟨3, 3⟩ camDummy
      uninitGarbage).1.maxHits = 7 ∧
    (7 : ℕ) ≠ 0 :=
  of_decide_eq_true (by with_unfolding_all rfl)

/-- Claim C9, counterexample. `fineOptimize` does not restore the secondary:
entering with the secondary at `(3,3)` and a start point `(5,0)` (zero
hill-climb iterations), the function returns with the secondary moved to
`(5,0)`, and the camera readouts are likewise left at the final re-trace's
values rather than their entry values. -/
theorem optimizer_restore_counterexample :
    (fineOptimize [hyperDummy] true (fun _ => ⟨1, 2, 3, 0⟩) 10 5 0 (1 / 2) 0 ⟨3, 3⟩ camDummy
      uninitZero).2.1 = ⟨5, 0⟩ ∧
    ((⟨5, 0⟩ : Vec2) ≠ ⟨3, 3⟩) ∧
    (fineOptimize [hyperDummy] true (fun _ => ⟨1, 2, 3, 0⟩) 10 5 0 (1 / 2) 0 ⟨3, 3⟩ camDummy
      uninitZero).2.2 ≠ camDummy :=
  of_decide_eq_true (by with_unfolding_all rfl)

/-- Claim C9, amended. `optimizeSecondaryPosition` restores the secondary's
entry position on every return path, and `evaluatePosition` restores it on
every call; `fineOptimize`, by contrast, deliberately leaves the secondary
at the best position it found (the position reported in its result).  The
camera's accumulators are mutated by all three. -/
theorem optimizer_restore_amended :
    (∀ mirrors camPresent trace numRays xmin xmax xstep ymin ymax ystep sec0 cam0 uninit,
      (coarseScan mirrors camPresent trace numRays xmin xmax xstep ymin ymax ystep
        sec0 cam0 uninit).2.1 = sec0) ∧
    (∀ trace sec test, (evaluatePosition trace sec test).2.1 = sec) ∧
    (∀ (mirrors : List Surface) (camPresent : Bool) (trace : Vec2 → BundleStats)
      (numRays : ℕ) (sX sY iS : ℚ) (mI : ℕ) (sec0 : Vec2) (cam0 : BundleStats)
      (uninit : OptimizationResult),
      (mirrors.any (fun s => s.type = SurfType.hyperbolic) ∧ camPresent) →
      (fineOptimize mirrors camPresent trace numRays sX sY iS mI sec0 cam0 uninit).2.1 =
        (⟨(fineOptimize mirrors camPresent trace numRays sX sY iS mI sec0 cam0
            uninit).1.bestSecondaryX,
          (fineOptimize mirrors camPresent trace numRays sX sY iS mI sec0 cam0
            uninit).1.bestSecondaryY⟩ : Vec2)) := by
  refine ⟨?_, ?_, ?_⟩
  · intro mirrors camPresent trace numRays xmin xmax xstep ymin ymax ystep sec0 cam0 uninit
    simp only [coarseScan]
    split <;> rfl
  · intro trace sec test
    rfl
  · intro mirrors camPresent trace numRays sX sY iS mI sec0 cam0 uninit h
    simp only [fineOptimize, if_pos h]

/-- Claim C9, witness for the amended theorem at concrete inputs. -/
theorem optimizer_restore_amended_witness :
    (coarseScan [hyperDummy] true traceCE1 5 0 1 1 0 0 1 ⟨3, 3⟩ camDummy uninitZero).2.1
      = ⟨3, 3⟩ ∧
    (evaluatePosition traceCE1 ⟨3, 3⟩ ⟨9, 9⟩).2.1 = ⟨3, 3⟩ ∧
    (fineOptimize [hyperDummy] true traceCE1 5 5 0 (1 / 2) 0 ⟨3, 3⟩ camDummy uninitZero).2.1 =
      (⟨(fineOptimize [hyperDummy] true traceCE1 5 5 0 (1 / 2) 0 ⟨3, 3⟩ camDummy
          uninitZero).1.bestSecondaryX,
        (fineOptimize [hyperDummy] true traceCE1 5 5 0 (1 / 2) 0 ⟨3, 3⟩ camDummy
          uninitZero).1.bestSecondaryY⟩ : Vec2) := by
  refine ⟨?_, ?_, ?_⟩
  · exact optimizer_restore_amended.1 [hyperDummy] true traceCE1 5 0 1 1 0 0 1 ⟨3, 3⟩
      camDummy uninitZero
  · exact optimizer_restore_amended.2.1 traceCE1 ⟨3, 3⟩ ⟨9, 9⟩
  · exact optimizer_restore_amended.2.2 [hyperDummy] true traceCE1 5 5 0 (1 / 2) 0 ⟨3, 3⟩
      camDummy uninitZero (of_decide_eq_true (by with_unfolding_all rfl))

/-- Claim C3 (confirmed). Every hill-climb iteration evaluates exactly the 8
candidate moves (four axis directions, four diagonals), each offset from
the current best point by the direction scaled by the current step size; a
move is accepted (best position and best RMS updated, `improved` set) iff
its RMS is strictly below the best RMS seen so far, while the best hit
count is tracked separately and never moves the best position; after an
iteration with no accepted move the step size is halved, and the loop
stops once the halved step drops below `0.001`. -/
theorem fineOptimize_hill_climb_rule :
    (fineDirections.length = 8 ∧
      fineDirections = [(1, 0), (-1, 0), (0, 1), (0, -1),
        (707 / 1000, 707 / 1000), (-707 / 1000, 707 / 1000),
        (707 / 1000, -707 / 1000), (-707 / 1000, -707 / 1000)]) ∧
    (∀ (trace : Vec2 → BundleStats) (stepSize : ℚ) (acc : FineAcc) (d : ℚ × ℚ),
      (fineStep trace stepSize acc d).bestHits =
        max acc.bestHits (trace ⟨acc.bestX + d.1 * stepSize, acc.bestY + d.2 * stepSize⟩).hits ∧
      ((trace ⟨acc.bestX + d.1 * stepSize, acc.bestY + d.2 * stepSize⟩).rms < acc.bestRMS →
        (fineStep trace stepSize acc d).bestX = acc.bestX + d.1 * stepSize ∧
        (fineStep trace stepSize acc d).bestY = acc.bestY + d.2 * stepSize ∧
        (fineStep trace stepSize acc d).bestRMS =
          (trace ⟨acc.bestX + d.1 * stepSize, acc.bestY + d.2 * stepSize⟩).rms ∧
        (fineStep trace stepSize acc d).improved = true) ∧
      (¬(trace ⟨acc.bestX + d.1 * stepSize, acc.bestY + d.2 * stepSize⟩).rms < acc.bestRMS →
        (fineStep trace stepSize acc d).bestX = acc.bestX ∧
        (fineStep trace stepSize acc d).bestY = acc.bestY ∧
        (fineStep trace stepSize acc d).bestRMS = acc.bestRMS ∧
        (fineStep trace stepSize acc d).improved = acc.improved)) ∧
    (∀ (trace : Vec2 → BundleStats) (stepSize : ℚ) (acc : FineAcc),
      fineIter trace stepSize acc =
        fineDirections.foldl (fineStep trace stepSize) { acc with improved := false }) ∧
    (∀ (trace : Vec2 → BundleStats) (n : ℕ) (stepSize : ℚ) (acc : FineAcc),
      ((fineIter trace stepSize acc).improved = true →
        fineLoop trace (n + 1) stepSize acc =
          fineLoop trace n stepSize (fineIter trace stepSize acc)) ∧
      ((fineIter trace stepSize acc).improved = false →
        (1 / 1000 ≤ stepSize * (1 / 2) →
          fineLoop trace (n + 1) stepSize acc =
            fineLoop trace n (stepSize * (1 / 2)) (fineIter trace stepSize acc)) ∧
        (stepSize * (1 / 2) < 1 / 1000 →
          fineLoop trace (n + 1) stepSize acc =
            (fineIter trace stepSize acc, stepSize * (1 / 2))))) := by
  refine ⟨⟨rfl, rfl⟩, ?_, fun _ _ _ => rfl, ?_⟩
  · intro trace stepSize acc d
    simp only [fineStep, evaluatePosition]
    refine ⟨?_, ?_, ?_⟩
    · split_ifs <;> simp <;> omega
    · intro h
      split_ifs <;> simp_all
    · intro h
      split_ifs <;> simp_all
  · intro trace n stepSize acc
    constructor
    · intro h
      simp only [fineLoop, h, if_pos]
    · intro h
      constructor
      · intro hstep
        rw [fineLoop, h]
        simp only [Bool.false_eq_true, if_false, if_neg (not_lt.mpr hstep)]
      · intro hstep
        rw [fineLoop, h]
        simp only [Bool.false_eq_true, if_false, if_pos hstep]

/-- Claim C3, witness: the hill-climb rule instantiated at a concrete state
(`traceCE1`, step ½, first direction): the probe at `(1/2, 0)` has RMS 10
below the initial sentinel, so the move is accepted. -/
theorem fineOptimize_hill_climb_rule_witness :
    (fineStep traceCE1 (1 / 2) ⟨0, 0, 0, fltMax, false, ⟨3, 3⟩, camDummy⟩ (1, 0)).bestX =
      0 + 1 * (1 / 2) ∧
    fineLoop traceCE1 1 (1 / 4000) ⟨0, 0, 0, 0, false, ⟨3, 3⟩, camDummy⟩ =
      (fineIter traceCE1 (1 / 4000) ⟨0, 0, 0, 0, false, ⟨3, 3⟩, camDummy⟩,
        1 / 4000 * (1 / 2)) := by
  constructor
  · exact ((fineOptimize_hill_climb_rule.2.1 traceCE1 (1 / 2)
      ⟨0, 0, 0, fltMax, false, ⟨3, 3⟩, camDummy⟩ (1, 0)).2.1
      (of_decide_eq_true (by with_unfolding_all rfl))).1
  · exact ((fineOptimize_hill_climb_rule.2.2.2 traceCE1 0 (1 / 4000)
      ⟨0, 0, 0, 0, false, ⟨3, 3⟩, camDummy⟩).2
      (of_decide_eq_true (by with_unfolding_all rfl))).2
      (of_decide_eq_true (by with_unfolding_all rfl))

/-- Claim C8 (confirmed). `evaluateConfig` scores a configuration as
`score = 100·hitPercentage − rmsSpotSize`; consequently with equal RMS a
strictly higher hit count (hence hit percentage) scores strictly higher,
and with equal hit percentage a strictly lower RMS scores strictly higher;
`optimizeBatch`'s ranking is sorted by descending score and permutes the
evaluated results (before truncation to the top N). -/
theorem batch_score_ranking :
    (∀ (numRays : ℕ) (acc : BatchAcc),
      (batchFinalize numRays acc).score =
        100 * (batchFinalize numRays acc).hitPercentage -
          (batchFinalize numRays acc).rmsSpotSize) ∧
    (∀ (numRays h1 h2 : ℕ) (rm bx1 by1 bx2 by2 : ℚ), 0 < numRays → h2 < h1 →
      (batchFinalize numRays ⟨h2, bx2, by2, rm⟩).score <
        (batchFinalize numRays ⟨h1, bx1, by1, rm⟩).score) ∧
    (∀ (numRays h : ℕ) (rm1 rm2 bx1 by1 bx2 by2 : ℚ), rm1 < rm2 →
      (batchFinalize numRays ⟨h, bx2, by2, rm2⟩).score <
        (batchFinalize numRays ⟨h, bx1, by1, rm1⟩).score) ∧
    (∀ (results : List BatchRes) (topN : ℕ),
      List.Sorted (fun a b : BatchRes => b.score ≤ a.score) (optimizeBatchRank results topN) ∧
      (results.mergeSort (fun a b => b.score ≤ a.score)).Perm results) := by
  refine ⟨?_, ?_, ?_, ?_⟩
  · intro numRays acc
    simp only [batchFinalize]
    ring
  · intro numRays h1 h2 rm bx1 by1 bx2 by2 hn h12
    simp only [batchFinalize]
    have hn' : (0 : ℚ) < numRays := by exact_mod_cast hn
    have h12' : (h2 : ℚ) < h1 := by exact_mod_cast h12
    have : 100 * (h2 : ℚ) / numRays < 100 * (h1 : ℚ) / numRays := by gcongr
    nlinarith
  · intro numRays h rm1 rm2 bx1 by1 bx2 by2 h12
    simp only [batchFinalize]
    linarith
  · intro results topN
    constructor
    · have hs := @List.sorted_mergeSort BatchRes
        (fun a b : BatchRes => decide (b.score ≤ a.score))
        (fun a b c hab hbc => by
          simp only [decide_eq_true_eq] at *
          exact le_trans hbc hab)
        (fun a b => by
          simp only [Bool.or_eq_true, decide_eq_true_eq]
          exact le_total b.score a.score)
        results
      have hs' : List.Sorted (fun a b : BatchRes => b.score ≤ a.score)
          (results.mergeSort (fun a b => b.score ≤ a.score)) := by
        refine List.Pairwise.imp ?_ hs
        intro a b hab
        exact of_decide_eq_true hab
      exact hs'.sublist (List.take_sublist _ _)
    · exact List.mergeSort_perm results _

/-- Claim C8, witness: the hypotheses instantiated concretely — 10 rays, a
7-hit result beats a 5-hit result at equal RMS 2, and an RMS-1 result
beats an RMS-3 result at equal hit count. -/
theorem batch_score_ranking_witness :
    (batchFinalize 10 ⟨5, 0, 0, 2⟩).score < (batchFinalize 10 ⟨7, 1, 0, 2⟩).score ∧
    (batchFinalize 10 ⟨5, 0, 0, 3⟩).score < (batchFinalize 10 ⟨5, 1, 0, 1⟩).score := by
  constructor
  · exact batch_score_ranking.2.1 10 7 5 2 1 0 0 0 (by norm_num) (by norm_num)
  · exact batch_score_ranking.2.2.1 10 5 1 3 1 0 0 0 (by norm_num)

/-- Claim C4 (confirmed). If at bounce index 0 the globally nearest valid
hit is a hyperbolic surface, `traceRay` sets the ray's bounce counter to
the sentinel `-1`, increments the camera's blocked-ray counter, stops
without reflecting (ray path, origin and direction untouched), and does
not increment `totalRaysTraced`. -/
theorem traceRay_blocked_secondary_first :
    ∀ (mirrors : List Surface) (ci : RayState → Intersec) (maxBounces : ℕ)
      (r : RayState) (cs : CamState),
      0 < maxBounces →
      (selectClosest mirrors (some ci) 0 r).1.hit = true →
      (selectClosest mirrors (some ci) 0 r).2 = some SurfType.hyperbolic →
      traceRay mirrors (some ci) maxBounces r cs =
        ({ r with bounces := -1 }, { cs with blockedRays := cs.blockedRays + 1 }) := by
  intro mirrors ci maxBounces r cs hfuel hhit hsec
  obtain ⟨k, rfl⟩ : ∃ k, maxBounces = k + 1 := ⟨maxBounces - 1, by omega⟩
  simp only [traceRay, traceLoop, hhit, hsec, if_true, Option.isSome_some]
  norm_num

/-- Claim C4, witness: a ray meeting the concrete hyperbolic secondary at
bounce 0 (camera probe missing) is blocked. -/
theorem traceRay_blocked_secondary_first_witness :
    traceRay [hyperReal] (some camMiss) 4 rayCE clearHits =
      ({ rayCE with bounces := -1 },
       { clearHits with blockedRays := clearHits.blockedRays + 1 }) :=
  traceRay_blocked_secondary_first [hyperReal] camMiss 4 rayCE clearHits (by norm_num)
    (of_decide_eq_true (by with_unfolding_all rfl))
    (of_decide_eq_true (by with_unfolding_all rfl))

/-- For bounce index ≥ 2 the mirror fold of `selectClosest` never probes a
mirror: the whole mirror list contributes nothing. -/
lemma selectClosest_ge_two (mirrors : List Surface) (cam : Option (RayState → Intersec))
    (b : ℕ) (r : RayState) (hb : 2 ≤ b) :
    selectClosest mirrors cam b r = selectClosest [] cam b r := by
  unfold selectClosest
  rw [List.foldl_fixed' (fun m => by simp [if_pos hb]), List.foldl_nil]

/-- With no mirror contribution, the selected `hitMirror` tag is `none`. -/
lemma selectClosest_nil_snd (cam : Option (RayState → Intersec)) (b : ℕ) (r : RayState) :
    (selectClosest [] cam b r).2 = none := by
  unfold selectClosest
  cases cam with
  | none => rfl
  | some ci =>
      simp only [List.foldl_nil]
      split <;> rfl

/-- Invariant of the bounce loop: the loop continues only by reflecting, so
a ray entering iteration `b` with `bounces = b ≤ 2` can never leave with
more than two reflections (mirrors are skipped from bounce 2 on). -/
lemma traceLoop_bounces_le (mirrors : List Surface) (cam : Option (RayState → Intersec)) :
    ∀ (fuel b : ℕ) (r : RayState) (cs : CamState),
      r.bounces = (b : ℤ) → b ≤ 2 →
      (traceLoop mirrors cam fuel b r cs).1.bounces ≤ 2 := by
  intro fuel
  induction fuel with
  | zero =>
      intro b r cs hb hle
      simp only [traceLoop, hb]
      exact_mod_cast hle
  | succ k ih =>
      intro b r cs hb hle
      simp only [traceLoop]
      by_cases hhit : (selectClosest mirrors cam b r).1.hit
      · cases hsnd : (selectClosest mirrors cam b r).2 with
        | none =>
            simp only [hhit, hsnd, if_true]
            simpa [hb] using by exact_mod_cast hle
        | some ty =>
            by_cases hbt : b = 0 ∧ ty = SurfType.hyperbolic
            · simp only [hhit, hsnd, if_pos hbt, if_true]
              norm_num
            · have hblt : b < 2 := by
                rcases Nat.lt_or_ge b 2 with h | h
                · exact h
                · exfalso
                  have h2 : 2 ≤ b := h
                  rw [selectClosest_ge_two mirrors cam b r h2,
                    selectClosest_nil_snd cam b r] at hsnd
                  exact Option.noConfusion hsnd
              simp only [hhit, hsnd, if_neg hbt, if_true]
              exact ih (b + 1) _ cs (by simp [reflect, hb]) (by omega)
      · simp only [hhit, Bool.false_eq_true, if_false, hb]
        exact_mod_cast hle

/-- Claim C5 (confirmed). For bounce indices ≥ 2 the candidate selection is
identical to a selection with an empty mirror list — no reflective mirror
surface is probed, only the sensor can be hit — and consequently a ray
entering `traceRay` with a zero bounce counter never leaves with more than
two reflections. -/
theorem traceRay_skip_mirrors_after_two :
    (∀ (mirrors : List Surface) (cam : Option (RayState → Intersec)) (b : ℕ) (r : RayState),
      2 ≤ b → selectClosest mirrors cam b r = selectClosest [] cam b r) ∧
    (∀ (mirrors : List Surface) (cam : Option (RayState → Intersec)) (maxBounces : ℕ)
      (r : RayState) (cs : CamState), r.bounces = 0 →
      (traceRay mirrors cam maxBounces r cs).1.bounces ≤ 2) := by
  constructor
  · intro mirrors cam b r hb
    exact selectClosest_ge_two mirrors cam b r hb
  · intro mirrors cam maxBounces r cs h0
    have hloop := traceLoop_bounces_le mirrors cam maxBounces 0 r cs (by simpa using h0)
      (by omega)
    simp only [traceRay]
    split
    · simpa using hloop
    · exact hloop

/-- Claim C5, witness: the skip rule and the two-reflection bound at a
concrete system (the real hyperbolic secondary plus an always-hitting
camera probe). -/
theorem traceRay_skip_mirrors_after_two_witness :
    selectClosest [hyperReal] (some camAt7) 2 rayCE = selectClosest [] (some camAt7) 2 rayCE ∧
    (traceRay [hyperReal] (some camAt7) 4 rayCE clearHits).1.bounces ≤ 2 := by
  constructor
  · exact traceRay_skip_mirrors_after_two.1 [hyperReal] (some camAt7) 2 rayCE (by norm_num)
  · exact traceRay_skip_mirrors_after_two.2 [hyperReal] (some camAt7) 4 rayCE clearHits rfl

/-- One scan sample turns the running maximum hit count into the max of
itself and the sample's hit count. -/
lemma scanStep_maxHits (numRays : ℕ) (trace : Vec2 → BundleStats) (acc : ScanAcc) (p : Vec2) :
    (scanStep numRays trace acc p).res.maxHits = max acc.res.maxHits (trace p).hits := by
  simp only [scanStep]
  split_ifs <;> simp_all <;> omega

/-- One scan sample either accepts the position (threshold met and RMS
strictly improved: best position, best RMS and `bestHitsForRMS` all move to
the sample) or leaves all the `bestForRMS` tracking unchanged. -/
lemma scanStep_char (numRays : ℕ) (trace : Vec2 → BundleStats) (acc : ScanAcc) (p : Vec2) :
    ((numRays / 2 ≤ (trace p).hits ∧ (trace p).rms < acc.bestRMS) ∧
      (scanStep numRays trace acc p).res.bestSecondaryX = p.x ∧
      (scanStep numRays trace acc p).res.bestSecondaryY = p.y ∧
      (scanStep numRays trace acc p).bestRMS = (trace p).rms ∧
      (scanStep numRays trace acc p).bestHitsForRMS = (trace p).hits) ∨
    (¬(numRays / 2 ≤ (trace p).hits ∧ (trace p).rms < acc.bestRMS) ∧
      (scanStep numRays trace acc p).res.bestSecondaryX = acc.res.bestSecondaryX ∧
      (scanStep numRays trace acc p).res.bestSecondaryY = acc.res.bestSecondaryY ∧
      (scanStep numRays trace acc p).bestRMS = acc.bestRMS ∧
      (scanStep numRays trace acc p).bestHitsForRMS = acc.bestHitsForRMS) := by
  by_cases h : numRays / 2 ≤ (trace p).hits ∧ (trace p).rms < acc.bestRMS
  · left
    refine ⟨h, ?_⟩
    simp [scanStep, if_pos h]
  · right
    refine ⟨h, ?_⟩
    simp only [scanStep, if_neg h]
    split_ifs <;> simp

/-- Over the whole first pass, the running maximum hit count bounds every
sample, is monotone in its initial value, and is attained (or was the
initial value). -/
lemma scanFold_maxHits (numRays : ℕ) (trace : Vec2 → BundleStats) :
    ∀ (l : List Vec2) (acc : ScanAcc),
      (∀ p ∈ l, (trace p).hits ≤ (l.foldl (scanStep numRays trace) acc).res.maxHits) ∧
      acc.res.maxHits ≤ (l.foldl (scanStep numRays trace) acc).res.maxHits ∧
      ((l.foldl (scanStep numRays trace) acc).res.maxHits = acc.res.maxHits ∨
        ∃ p ∈ l, (l.foldl (scanStep numRays trace) acc).res.maxHits = (trace p).hits) := by
  intro l
  induction l with
  | nil => intro acc; simp
  | cons p rest ih =>
      intro acc
      simp only [List.foldl_cons]
      obtain ⟨ihbound, ihmono, ihattain⟩ := ih (scanStep numRays trace acc p)
      have hstep := scanStep_maxHits numRays trace acc p
      refine ⟨?_, ?_, ?_⟩
      · intro q hq
        rcases List.mem_cons.mp hq with rfl | hq'
        · exact le_trans (by rw [hstep]; omega) ihmono
        · exact ihbound q hq'
      · exact le_trans (by rw [hstep]; omega) ihmono
      · rcases ihattain with h | ⟨q, hq, heq⟩
        · rw [h, hstep]
          rcases max_choice acc.res.maxHits (trace p).hits with h1 | h1
          · left; exact h1
          · right; exact ⟨p, List.mem_cons_self p rest, h1⟩
        · right; exact ⟨q, List.mem_cons_of_mem _ hq, heq⟩

/-- Characterization of the first pass's `bestForRMS` tracking: either no
sample was accepted (tracking unchanged, and every threshold-passing
sample has RMS at least the initial best) or the tracking ends at some
threshold-passing sample that strictly improved on the initial best RMS
and whose RMS is minimal among all threshold-passing samples. -/
lemma scanFold_rms (numRays : ℕ) (trace : Vec2 → BundleStats) :
    ∀ (l : List Vec2) (acc : ScanAcc),
      ((l.foldl (scanStep numRays trace) acc).bestRMS = acc.bestRMS ∧
        (l.foldl (scanStep numRays trace) acc).res.bestSecondaryX = acc.res.bestSecondaryX ∧
        (l.foldl (scanStep numRays trace) acc).res.bestSecondaryY = acc.res.bestSecondaryY ∧
        (l.foldl (scanStep numRays trace) acc).bestHitsForRMS = acc.bestHitsForRMS ∧
        (∀ p ∈ l, numRays / 2 ≤ (trace p).hits → acc.bestRMS ≤ (trace p).rms)) ∨
      (∃ p ∈ l, numRays / 2 ≤ (trace p).hits ∧
        (l.foldl (scanStep numRays trace) acc).res.bestSecondaryX = p.x ∧
        (l.foldl (scanStep numRays trace) acc).res.bestSecondaryY = p.y ∧
        (l.foldl (scanStep numRays trace) acc).bestRMS = (trace p).rms ∧
        (l.foldl (scanStep numRays trace) acc).bestHitsForRMS = (trace p).hits ∧
        (trace p).rms < acc.bestRMS ∧
        (∀ q ∈ l, numRays / 2 ≤ (trace q).hits →
          (l.foldl (scanStep numRays trace) acc).bestRMS ≤ (trace q).rms)) := by
  intro l
  induction l with
  | nil => intro acc; left; simp
  | cons p rest ih =>
      intro acc
      simp only [List.foldl_cons]
      rcases scanStep_char numRays trace acc p with
        ⟨⟨hpass, himp⟩, hX, hY, hR, hH⟩ | ⟨hno, hX, hY, hR, hH⟩
      · -- the head sample is accepted
        rcases ih (scanStep numRays trace acc p) with
          ⟨iR, iX, iY, iH, imin⟩ | ⟨q, hq, hqpass, iX, iY, iR, iH, hqlt, imin⟩
        · right
          refine ⟨p, List.mem_cons_self p rest, hpass, by rw [iX, hX], by rw [iY, hY],
            by rw [iR, hR], by rw [iH, hH], himp, ?_⟩
          intro q hq hqpass
          rcases List.mem_cons.mp hq with rfl | hq'
          · rw [iR, hR]
          · rw [iR, hR]
            have := imin q hq' hqpass
            rw [hR] at this
            exact this
        · right
          refine ⟨q, List.mem_cons_of_mem _ hq, hqpass, iX, iY, iR, iH, ?_, ?_⟩
          · rw [hR] at hqlt
            exact lt_trans hqlt himp
          · intro q' hq' hq'pass
            rcases List.mem_cons.mp hq' with rfl | hq''
            · rw [iR]
              rw [hR] at hqlt
              exact le_of_lt hqlt
            · exact imin q' hq'' hq'pass
      · -- the head sample is not accepted: tracking unchanged by the head
        rcases ih (scanStep numRays trace acc p) with
          ⟨iR, iX, iY, iH, imin⟩ | ⟨q, hq, hqpass, iX, iY, iR, iH, hqlt, imin⟩
        · left
          refine ⟨by rw [iR, hR], by rw [iX, hX], by rw [iY, hY], by rw [iH, hH], ?_⟩
          intro q hq hqpass
          rcases List.mem_cons.mp hq with rfl | hq'
          · by_contra hcon
            exact hno ⟨hqpass, lt_of_not_le hcon⟩
          · have := imin q hq' hqpass
            rw [hR] at this
            exact this
        · right
          refine ⟨q, List.mem_cons_of_mem _ hq, hqpass, iX, iY, iR, iH, ?_, ?_⟩
          · rw [hR] at hqlt
            exact hqlt
          · intro q' hq' hq'pass
            rcases List.mem_cons.mp hq' with rfl | hq''
            · rw [iR]
              rw [hR] at hqlt
              by_cases hq'imp : (trace q').rms < acc.bestRMS
              · exact absurd ⟨hq'pass, hq'imp⟩ hno
              · exact le_trans (le_of_lt hqlt) (not_lt.mp hq'imp)
            · exact imin q' hq'' hq'pass

/-- Characterization of the fallback pass (run with `bestHitsForRMS = 0`):
either no grid sample attains the recorded maximum (and the best position
is untouched) or the returned position is a grid sample attaining it. -/
lemma fallbackScan_char (trace : Vec2 → BundleStats) (mh : ℕ) (ys : List ℚ) :
    ∀ (xs : List ℚ) (best0 : Vec2),
      (fallbackScan trace mh ys 0 xs best0 = best0 ∧
        ∀ x ∈ xs, ∀ y ∈ ys, (trace ⟨x, y⟩).hits ≠ mh) ∨
      (∃ x ∈ xs, ∃ y ∈ ys,
        fallbackScan trace mh ys 0 xs best0 = ⟨x, y⟩ ∧ (trace ⟨x, y⟩).hits = mh) := by
  intro xs
  induction xs with
  | nil => intro best0; left; exact ⟨rfl, by simp⟩
  | cons x rest ih =>
      intro best0
      rw [fallbackScan]
      simp only [lt_irrefl, if_false]
      cases hfind : ys.find? (fun y => (trace ⟨x, y⟩).hits = mh) with
      | none =>
          have hnone : ∀ y ∈ ys, (trace ⟨x, y⟩).hits ≠ mh := by
            intro y hy
            have := List.find?_eq_none.mp hfind y hy
            simpa using this
          rcases ih best0 with ⟨hfix, hall⟩ | ⟨x', hx', y', hy', heq, hhits⟩
          · left
            refine ⟨by simpa [hfind] using hfix, ?_⟩
            intro x' hx' y' hy'
            rcases List.mem_cons.mp hx' with rfl | hx''
            · exact hnone y' hy'
            · exact hall x' hx'' y' hy'
          · right
            exact ⟨x', List.mem_cons_of_mem _ hx', y', hy', by simpa [hfind] using heq, hhits⟩
      | some y =>
          have hy : y ∈ ys := List.mem_of_find?_eq_some hfind
          have hhits : (trace ⟨x, y⟩).hits = mh := by
            have := List.find?_some hfind
            simpa using this
          rcases ih ⟨x, y⟩ with ⟨hfix, hall⟩ | ⟨x', hx', y', hy', heq, hhits'⟩
          · right
            exact ⟨x, List.mem_cons_self x rest, y, hy, by simpa [hfind] using hfix, hhits⟩
          · right
            exact ⟨x', List.mem_cons_of_mem _ hx', y', hy', by simpa [hfind] using heq, hhits'⟩

/-- Grid membership: a point belongs to the scan-pair list iff its
coordinates belong to the respective axis lists. -/
lemma mem_scanPairs (xs ys : List ℚ) (x y : ℚ) :
    (⟨x, y⟩ : Vec2) ∈ scanPairs xs ys ↔ x ∈ xs ∧ y ∈ ys := by
  simp only [scanPairs, List.mem_flatMap, List.mem_map]
  constructor
  · rintro ⟨x', hx', y', hy', heq⟩
    obtain ⟨rfl, rfl⟩ : x' = x ∧ y' = y := by
      injection heq with h1 h2
      exact ⟨h1, h2⟩
    exact ⟨hx', hy'⟩
  · rintro ⟨hx, hy⟩
    exact ⟨x, hx, y, hy, rfl⟩

/-- Unfolding of `coarseScan` when a hyperbolic secondary and a camera are
present. -/
lemma coarseScan_pos (mirrors : List Surface) (trace : Vec2 → BundleStats) (numRays : ℕ)
    (xmin xmax xstep ymin ymax ystep : ℚ) (sec0 : Vec2) (cam0 : BundleStats)
    (uninit : OptimizationResult)
    (hsec : mirrors.any (fun s => s.type = SurfType.hyperbolic) = true) :
    coarseScan mirrors true trace numRays xmin xmax xstep ymin ymax ystep sec0 cam0 uninit =
      (let acc := (scanPairs (gridPoints xmin xmax xstep) (gridPoints ymin ymax ystep)).foldl
        (scanStep numRays trace)
        ⟨⟨xmin, 0, 0, uninit.hitPercentage, uninit.focusSpread, []⟩, fltMax, 0⟩
       let best :=
        if acc.bestHitsForRMS = 0 then
          fallbackScan trace acc.res.maxHits (gridPoints ymin ymax ystep) acc.bestHitsForRMS
            (gridPoints xmin xmax xstep) ⟨acc.res.bestSecondaryX, acc.res.bestSecondaryY⟩
        else ⟨acc.res.bestSecondaryX, acc.res.bestSecondaryY⟩
       ({ acc.res with
          bestSecondaryX := best.x
          bestSecondaryY := best.y
          hitPercentage := 100 * (acc.res.maxHits : ℚ) / (numRays : ℚ)
          focusSpread := (trace best).rms }, sec0, trace best)) := by
  simp only [coarseScan]
  rw [if_pos ⟨hsec, trivial⟩]

/-- Claim C1, counterexample. The code's threshold is `hits >= numRays / 2`
with C++ integer division, not "at least 50% of the ray bundle".  With a
5-ray bundle, the position `(0,0)` collects 2 hits — below 50% (2·2 < 5)
but meeting `5 / 2 = 2` — at RMS 1, while `(1,0)` collects all 5 rays at
RMS 10.  The code selects `(0,0)`; the rule as the claim words it (and as
`specCoarseSelect` transcribes it) selects `(1,0)`. -/
theorem coarse_fifty_percent_counterexample :
    (coarseScan [hyperDummy] true traceCE1 5 0 1 1 0 0 1 ⟨3, 3⟩ camDummy
      uninitZero).1.bestSecondaryX = 0 ∧
    (coarseScan [hyperDummy] true traceCE1 5 0 1 1 0 0 1 ⟨3, 3⟩ camDummy
      uninitZero).1.bestSecondaryY = 0 ∧
    specCoarseSelect traceCE1 5 (scanPairs (gridPoints 0 1 1) (gridPoints 0 0 1)) =
      some ⟨1, 0⟩ ∧
    2 * (traceCE1 ⟨0, 0⟩).hits < 5 ∧ (traceCE1 ⟨0, 0⟩).hits = 2 ∧
    5 / 2 ≤ (traceCE1 ⟨0, 0⟩).hits ∧
    (⟨0, 0⟩ : Vec2) ≠ ⟨1, 0⟩ :=
  of_decide_eq_true (by with_unfolding_all rfl)

/-- Claim C1, amended. With the threshold read as the code's
`hits ≥ numRays / 2` (integer division): among all scanned positions, if
some position passes the threshold (and every scanned RMS is below the
float-max sentinel, with a bundle of at least 2 rays), the returned
position passes the threshold and has minimal RMS among all
threshold-passing positions; if no position passes, the scan falls back
to a position achieving the global maximum hit count. -/
theorem coarse_selection_amended (mirrors : List Surface) (trace : Vec2 → BundleStats)
    (numRays : ℕ) (xmin xmax xstep ymin ymax ystep : ℚ) (sec0 : Vec2) (cam0 : BundleStats)
    (uninit : OptimizationResult)
    (hsec : mirrors.any (fun s => s.type = SurfType.hyperbolic) = true)
    (hrays : 2 ≤ numRays)
    (hrms : ∀ p ∈ scanPairs (gridPoints xmin xmax xstep) (gridPoints ymin ymax ystep),
      (trace p).rms < fltMax) :
    ((∃ p ∈ scanPairs (gridPoints xmin xmax xstep) (gridPoints ymin ymax ystep),
        numRays / 2 ≤ (trace p).hits) →
      ((⟨(coarseScan mirrors true trace numRays xmin xmax xstep ymin ymax ystep sec0 cam0
            uninit).1.bestSecondaryX,
         (coarseScan mirrors true trace numRays xmin xmax xstep ymin ymax ystep sec0 cam0
            uninit).1.bestSecondaryY⟩ : Vec2) ∈
          scanPairs (gridPoints xmin xmax xstep) (gridPoints ymin ymax ystep) ∧
       numRays / 2 ≤ (trace ⟨(coarseScan mirrors true trace numRays xmin xmax xstep ymin ymax
          ystep sec0 cam0 uninit).1.bestSecondaryX,
          (coarseScan mirrors true trace numRays xmin xmax xstep ymin ymax ystep sec0 cam0
            uninit).1.bestSecondaryY⟩).hits ∧
       ∀ q ∈ scanPairs (gridPoints xmin xmax xstep) (gridPoints ymin ymax ystep),
         numRays / 2 ≤ (trace q).hits →
         (trace ⟨(coarseScan mirrors true trace numRays xmin xmax xstep ymin ymax ystep sec0
            cam0 uninit).1.bestSecondaryX,
            (coarseScan mirrors true trace numRays xmin xmax xstep ymin ymax ystep sec0 cam0
              uninit).1.bestSecondaryY⟩).rms ≤ (trace q).rms)) ∧
    (scanPairs (gridPoints xmin xmax xstep) (gridPoints ymin ymax ystep) ≠ [] →
      (∀ p ∈ scanPairs (gridPoints xmin xmax xstep) (gridPoints ymin ymax ystep),
        ¬ numRays / 2 ≤ (trace p).hits) →
      ((⟨(coarseScan mirrors true trace numRays xmin xmax xstep ymin ymax ystep sec0 cam0
            uninit).1.bestSecondaryX,
         (coarseScan mirrors true trace numRays xmin xmax xstep ymin ymax ystep sec0 cam0
            uninit).1.bestSecondaryY⟩ : Vec2) ∈
          scanPairs (gridPoints xmin xmax xstep) (gridPoints ymin ymax ystep) ∧
       (trace ⟨(coarseScan mirrors true trace numRays xmin xmax xstep ymin ymax ystep sec0
          cam0 uninit).1.bestSecondaryX,
          (coarseScan mirrors true trace numRays xmin xmax xstep ymin ymax ystep sec0 cam0
            uninit).1.bestSecondaryY⟩).hits =
        (coarseScan mirrors true trace numRays xmin xmax xstep ymin ymax ystep sec0 cam0
          uninit).1.maxHits)) := by
  rw [coarseScan_pos mirrors trace numRays xmin xmax xstep ymin ymax ystep sec0 cam0 uninit
    hsec]
  set xs := gridPoints xmin xmax xstep with hxs
  set ys := gridPoints ymin ymax ystep with hys
  set pairs := scanPairs xs ys with hpairs
  set acc0 : ScanAcc :=
    ⟨⟨xmin, 0, 0, uninit.hitPercentage, uninit.focusSpread, []⟩, fltMax, 0⟩ with hacc0
  set accF := pairs.foldl (scanStep numRays trace) acc0 with haccF
  constructor
  · -- some position passes the threshold
    rintro ⟨p0, hp0, hp0pass⟩
    rcases scanFold_rms numRays trace pairs acc0 with
      ⟨_, _, _, _, hmin⟩ | ⟨p, hp, hppass, hX, hY, hR, hH, hlt, hmin⟩
    · exfalso
      have h1 : acc0.bestRMS ≤ (trace p0).rms := hmin p0 hp0 hp0pass
      have h2 : (trace p0).rms < fltMax := hrms p0 hp0
      rw [hacc0] at h1
      exact absurd h2 (not_lt.mpr h1)
    · have hthr : 1 ≤ numRays / 2 := by omega
      have hbh : ¬ accF.bestHitsForRMS = 0 := by
        rw [hH]
        omega
      simp only [if_neg hbh]
      have heta : (⟨accF.res.bestSecondaryX, accF.res.bestSecondaryY⟩ : Vec2) = p := by
        rw [hX, hY]
      rw [heta]
      have hpeta : (⟨p.x, p.y⟩ : Vec2) = p := rfl
      refine ⟨by simpa using hp, by simpa using hppass, ?_⟩
      intro q hq hqpass
      have := hmin q hq hqpass
      rw [hR] at this
      simpa using this
  · -- no position passes: fallback to a maximum-hit-count position
    intro hne hnopass
    rcases scanFold_rms numRays trace pairs acc0 with
      ⟨hR0, _, _, hH0, _⟩ | ⟨p, hp, hppass, _, _, _, _, _, _⟩
    · have hbh : accF.bestHitsForRMS = 0 := by
        rw [hH0, hacc0]
      simp only [hbh, if_pos]
      obtain ⟨hbound, _, hattain⟩ := scanFold_maxHits numRays trace pairs acc0
      have hattain' : ∃ q ∈ pairs, (trace q).hits = accF.res.maxHits := by
        rcases hattain with h0 | ⟨q, hq, hqe⟩
        · obtain ⟨q0, hq0⟩ := List.exists_mem_of_ne_nil pairs hne
          refine ⟨q0, hq0, ?_⟩
          have hb := hbound q0 hq0
          have hz : acc0.res.maxHits = 0 := rfl
          rw [h0, hz] at hb
          rw [h0, hz]
          omega
        · exact ⟨q, hq, hqe.symm⟩
      obtain ⟨q, hq, hqhits⟩ := hattain'
      obtain ⟨hqx, hqy⟩ : q.x ∈ xs ∧ q.y ∈ ys := by
        have : (⟨q.x, q.y⟩ : Vec2) ∈ pairs := by
          simpa using hq
        exact (mem_scanPairs xs ys q.x q.y).mp this
      rcases fallbackScan_char trace accF.res.maxHits ys xs
        ⟨accF.res.bestSecondaryX, accF.res.bestSecondaryY⟩ with
        ⟨_, hallne⟩ | ⟨x', hx', y', hy', heq, hhits⟩
      · exfalso
        exact hallne q.x hqx q.y hqy (by simpa using hqhits)
      · rw [heq]
        refine ⟨(mem_scanPairs xs ys x' y').mpr ⟨hx', hy'⟩, ?_⟩
        simpa using hhits
    · exact absurd hppass (hnopass p hp)

/-- Claim C1, witness for the amended theorem: on the concrete two-position
grid of `traceCE1` with 5 rays, both positions meet the integer-division
threshold and the scan returns `(0,0)`, the RMS minimizer among them. -/
theorem coarse_selection_amended_witness :
    ((⟨(coarseScan [hyperDummy] true traceCE1 5 0 1 1 0 0 1 ⟨3, 3⟩ camDummy
        uninitZero).1.bestSecondaryX,
       (coarseScan [hyperDummy] true traceCE1 5 0 1 1 0 0 1 ⟨3, 3⟩ camDummy
        uninitZero).1.bestSecondaryY⟩ : Vec2) ∈
      scanPairs (gridPoints 0 1 1) (gridPoints 0 0 1) ∧
    5 / 2 ≤ (traceCE1 ⟨(coarseScan [hyperDummy] true traceCE1 5 0 1 1 0 0 1 ⟨3, 3⟩ camDummy
        uninitZero).1.bestSecondaryX,
        (coarseScan [hyperDummy] true traceCE1 5 0 1 1 0 0 1 ⟨3, 3⟩ camDummy
        uninitZero).1.bestSecondaryY⟩).hits ∧
    ∀ q ∈ scanPairs (gridPoints 0 1 1) (gridPoints 0 0 1),
      5 / 2 ≤ (traceCE1 q).hits →
      (traceCE1 ⟨(coarseScan [hyperDummy] true traceCE1 5 0 1 1 0 0 1 ⟨3, 3⟩ camDummy
        uninitZero).1.bestSecondaryX,
        (coarseScan [hyperDummy] true traceCE1 5 0 1 1 0 0 1 ⟨3, 3⟩ camDummy
        uninitZero).1.bestSecondaryY⟩).rms ≤ (traceCE1 q).rms) :=
  (coarse_selection_amended [hyperDummy] traceCE1 5 0 1 1 0 0 1 ⟨3, 3⟩ camDummy uninitZero
    (of_decide_eq_true (by with_unfolding_all rfl))
    (by norm_num)
    (of_decide_eq_true (by with_unfolding_all rfl))).1
    ⟨⟨0, 0⟩, of_decide_eq_true (by with_unfolding_all rfl),
      of_decide_eq_true (by with_unfolding_all rfl)⟩

/-- Claim C2, counterexample. The result's hit count is the global maximum
over the scan, not the winning position's re-traced hits, and the hit
percentage divides by the full bundle size `numRays`, not by the
blocked-excluded `totalRaysTraced`: with `traceCE2` (winner `(0,0)`: 5
hits, 8 of 10 rays surviving; elsewhere 7 hits) the result reports
`maxHits = 7 ≠ 5` and `hitPercentage = 70 ≠ 100·5/8`. -/
theorem coarse_statistics_counterexample :
    (coarseScan [hyperDummy] true traceCE2 10 0 1 1 0 0 1 ⟨3, 3⟩ camDummy
      uninitZero).1.maxHits = 7 ∧
    (traceCE2 ⟨(coarseScan [hyperDummy] true traceCE2 10 0 1 1 0 0 1 ⟨3, 3⟩ camDummy
      uninitZero).1.bestSecondaryX,
      (coarseScan [hyperDummy] true traceCE2 10 0 1 1 0 0 1 ⟨3, 3⟩ camDummy
      uninitZero).1.bestSecondaryY⟩).hits = 5 ∧
    (coarseScan [hyperDummy] true traceCE2 10 0 1 1 0 0 1 ⟨3, 3⟩ camDummy
      uninitZero).1.hitPercentage = 70 ∧
    (traceCE2 ⟨(coarseScan [hyperDummy] true traceCE2 10 0 1 1 0 0 1 ⟨3, 3⟩ camDummy
      uninitZero).1.bestSecondaryX,
      (coarseScan [hyperDummy] true traceCE2 10 0 1 1 0 0 1 ⟨3, 3⟩ camDummy
      uninitZero).1.bestSecondaryY⟩).raysTraced = 8 ∧
    (100 * 5 / 8 : ℚ) ≠ 70 ∧ (7 : ℕ) ≠ 5 :=
  of_decide_eq_true (by with_unfolding_all rfl)

/-- Claim C2, amended. After the scan the authoritative re-trace at the
winning position supplies the result's RMS (`focusSpread`) and the final
camera readouts; the result's hit count is the global maximum hit count
observed over all scanned positions (bounded by and attained on the grid,
or zero), and the hit percentage is `100·maxHits/numRays` with the full
bundle size as denominator. -/
theorem coarse_statistics_amended (mirrors : List Surface) (trace : Vec2 → BundleStats)
    (numRays : ℕ) (xmin xmax xstep ymin ymax ystep : ℚ) (sec0 : Vec2) (cam0 : BundleStats)
    (uninit : OptimizationResult)
    (hsec : mirrors.any (fun s => s.type = SurfType.hyperbolic) = true) :
    (coarseScan mirrors true trace numRays xmin xmax xstep ymin ymax ystep sec0 cam0
      uninit).1.focusSpread =
      (trace ⟨(coarseScan mirrors true trace numRays xmin xmax xstep ymin ymax ystep sec0 cam0
        uninit).1.bestSecondaryX,
        (coarseScan mirrors true trace numRays xmin xmax xstep ymin ymax ystep sec0 cam0
          uninit).1.bestSecondaryY⟩).rms ∧
    (coarseScan mirrors true trace numRays xmin xmax xstep ymin ymax ystep sec0 cam0
      uninit).2.2 =
      trace ⟨(coarseScan mirrors true trace numRays xmin xmax xstep ymin ymax ystep sec0 cam0
        uninit).1.bestSecondaryX,
        (coarseScan mirrors true trace numRays xmin xmax xstep ymin ymax ystep sec0 cam0
          uninit).1.bestSecondaryY⟩ ∧
    (coarseScan mirrors true trace numRays xmin xmax xstep ymin ymax ystep sec0 cam0
      uninit).1.hitPercentage =
      100 * ((coarseScan mirrors true trace numRays xmin xmax xstep ymin ymax ystep sec0 cam0
        uninit).1.maxHits : ℚ) / (numRays : ℚ) ∧
    (∀ p ∈ scanPairs (gridPoints xmin xmax xstep) (gridPoints ymin ymax ystep),
      (trace p).hits ≤
        (coarseScan mirrors true trace numRays xmin xmax xstep ymin ymax ystep sec0 cam0
          uninit).1.maxHits) ∧
    ((coarseScan mirrors true trace numRays xmin xmax xstep ymin ymax ystep sec0 cam0
        uninit).1.maxHits = 0 ∨
      ∃ p ∈ scanPairs (gridPoints xmin xmax xstep) (gridPoints ymin ymax ystep),
        (trace p).hits =
          (coarseScan mirrors true trace numRays xmin xmax xstep ymin ymax ystep sec0 cam0
            uninit).1.maxHits) := by
  rw [coarseScan_pos mirrors trace numRays xmin xmax xstep ymin ymax ystep sec0 cam0 uninit
    hsec]
  set xs := gridPoints xmin xmax xstep with hxs
  set ys := gridPoints ymin ymax ystep with hys
  set pairs := scanPairs xs ys with hpairs
  set acc0 : ScanAcc :=
    ⟨⟨xmin, 0, 0, uninit.hitPercentage, uninit.focusSpread, []⟩, fltMax, 0⟩ with hacc0
  set accF := pairs.foldl (scanStep numRays trace) acc0 with haccF
  set best :=
    if accF.bestHitsForRMS = 0 then
      fallbackScan trace accF.res.maxHits ys accF.bestHitsForRMS xs
        ⟨accF.res.bestSecondaryX, accF.res.bestSecondaryY⟩
    else (⟨accF.res.bestSecondaryX, accF.res.bestSecondaryY⟩ : Vec2) with hbest
  obtain ⟨hbound, _, hattain⟩ := scanFold_maxHits numRays trace pairs acc0
  refine ⟨rfl, rfl, rfl, ?_, ?_⟩
  · intro p hp
    exact hbound p hp
  · rcases hattain with h0 | ⟨p, hp, hpe⟩
    · left
      rw [h0, hacc0]
    · right
      exact ⟨p, hp, hpe.symm⟩

/-- Claim C2, witness for the amended theorem at the concrete `traceCE2`
scan. -/
theorem coarse_statistics_amended_witness :
    (coarseScan [hyperDummy] true traceCE2 10 0 1 1 0 0 1 ⟨3, 3⟩ camDummy
      uninitZero).1.hitPercentage =
      100 * ((coarseScan [hyperDummy] true traceCE2 10 0 1 1 0 0 1 ⟨3, 3⟩ camDummy
        uninitZero).1.maxHits : ℚ) / (10 : ℚ) ∧
    (coarseScan [hyperDummy] true traceCE2 10 0 1 1 0 0 1 ⟨3, 3⟩ camDummy
      uninitZero).1.focusSpread =
      (traceCE2 ⟨(coarseScan [hyperDummy] true traceCE2 10 0 1 1 0 0 1 ⟨3, 3⟩ camDummy
        uninitZero).1.bestSecondaryX,
        (coarseScan [hyperDummy] true traceCE2 10 0 1 1 0 0 1 ⟨3, 3⟩ camDummy
          uninitZero).1.bestSecondaryY⟩).rms := by
  have h := coarse_statistics_amended [hyperDummy] traceCE2 10 0 1 1 0 0 1 ⟨3, 3⟩ camDummy
    uninitZero (of_decide_eq_true (by with_unfolding_all rfl))
  exact ⟨h.2.2.1, h.1⟩

end Telescope
